import Mathlib

/-- Dynamic Go values as they appear in an `interface\x7b\x7d` after JSON decoding
or as produced directly by repository code. -/
inductive GoValue where
  | VNil
  | VBool (b : Bool)
  | VInt (n : Int)
  | VFloat (q : ℚ)
  | VString (s : String)
  | VArr (xs : List GoValue)
  | VMap (fields : List (String × GoValue))
deriving Repr

/-- JSON syntax values (a syntactically valid JSON document, abstracted). -/
inductive Json where
  | null
  | bool (b : Bool)
  | num (q : ℚ)
  | str (s : String)
  | arr (xs : List Json)
  | obj (fields : List (String × Json))
deriving Repr

mutual
/-- encoding/json `Unmarshal` into `interface\x7b\x7d`: numbers become float64,
objects become `map[string]interface\x7b\x7d`, null becomes the nil interface. -/
def decodeJson : Json → GoValue
  | .null => .VNil
  | .bool b => .VBool b
  | .num q => .VFloat q
  | .str s => .VString s
  | .arr xs => .VArr (decodeJsonList xs)
  | .obj fs => .VMap (decodeJsonFields fs)

def decodeJsonList : List Json → List GoValue
  | [] => []
  | x :: xs => decodeJson x :: decodeJsonList xs

def decodeJsonFields : List (String × Json) → List (String × GoValue)
  | [] => []
  | (k, v) :: fs => (k, decodeJson v) :: decodeJsonFields fs
end

/-- Go nil-interface test `data != nil` specialised to decoded values: only a
top-level JSON null decodes to the nil interface. -/
def isNilV : GoValue → Bool
  | .VNil => true
  | _ => false

/-- Go type assertion `value.(map[string]interface\x7b\x7d)` succeeding. -/
def isMapV : GoValue → Bool
  | .VMap _ => true
  | _ => false

/-- `strings.HasSuffix`, computed over character lists so that concrete
instances reduce definitionally. -/
def strEndsWith (s pat : String) : Bool :=
  pat.toList.isSuffixOf s.toList

/-- A Go whitespace character as `strings.TrimSpace` treats it (the ASCII
space classes; no value in this development contains exotic whitespace). -/
def isSpaceChar (c : Char) : Bool :=
  c = ' ' || c = '\t' || c = '\n' || c = '\r'

/-- `strings.TrimSpace`. -/
def goTrim (s : String) : String :=
  String.mk (((s.toList.dropWhile isSpaceChar).reverse.dropWhile isSpaceChar).reverse)


/-- Rendering of a Go numeric as text. Go prints float64 values in shortest
decimal form; integral values print without a fractional part, which is the
only case the repository's observable behaviour in this development depends
on, so non-integral rationals keep their default textual form. -/
def ratRepr (q : ℚ) : String :=
  if q.den = 1 then toString q.num else toString q

mutual
/-- `json.Marshal` on a dynamic Go value (string escaping beyond quoting is
not exercised by any value in this development). -/
def jsonMarshal : GoValue → String
  | .VNil => "null"
  | .VBool true => "true"
  | .VBool false => "false"
  | .VInt n => toString n
  | .VFloat q => ratRepr q
  | .VString s => "\"" ++ s ++ "\""
  | .VArr xs => "[" ++ String.intercalate "," (jsonMarshalList xs) ++ "]"
  | .VMap fs => "\x7b" ++ String.intercalate "," (jsonMarshalFields fs) ++ "\x7d"

def jsonMarshalList : List GoValue → List String
  | [] => []
  | x :: xs => jsonMarshal x :: jsonMarshalList xs

def jsonMarshalFields : List (String × GoValue) → List String
  | [] => []
  | (k, v) :: fs => ("\"" ++ k ++ "\":" ++ jsonMarshal v) :: jsonMarshalFields fs
end

mutual
/-- `fmt.Sprintf` with verb `%v` on a dynamic Go value (Go renders map keys in
sorted order; field order is kept as given here — no claim depends on the
rendering of a map). -/
def goSprintV : GoValue → String
  | .VNil => "<nil>"
  | .VBool true => "true"
  | .VBool false => "false"
  | .VInt n => toString n
  | .VFloat q => ratRepr q
  | .VString s => s
  | .VArr xs => "[" ++ String.intercalate " " (goSprintVList xs) ++ "]"
  | .VMap fs => "map[" ++ String.intercalate " " (goSprintVFields fs) ++ "]"

def goSprintVList : List GoValue → List String
  | [] => []
  | x :: xs => goSprintV x :: goSprintVList xs

def goSprintVFields : List (String × GoValue) → List String
  | [] => []
  | (k, v) :: fs => (k ++ ":" ++ goSprintV v) :: goSprintVFields fs
end

/-- `getPostgreSQLType`: the type switch mapping a dynamic Go value to a SQL
column type, in the source's case order (int kinds, float kinds, bool,
slice/map, string, default). -/
def getPostgreSQLType : GoValue → String
  | .VInt _ => "INTEGER"
  | .VFloat _ => "NUMERIC"
  | .VBool _ => "BOOLEAN"
  | .VArr _ => "JSONB"
  | .VMap _ => "JSONB"
  | .VString _ => "TEXT"
  | .VNil => "TEXT"

/-- A relational table: its column list (name, SQL type), headed by the
`id SERIAL PRIMARY KEY` column, and its rows as bound (column, value) pairs. -/
structure Table where
  columns : List (String × String)
  rows : List (List (String × GoValue))
deriving Repr

/-- The relational store: tables by name. -/
abbrev DB := List (String × Table)

def dbGet (name : String) : DB → Option Table
  | [] => none
  | (n, t) :: rest => if n = name then some t else dbGet name rest

def dbErase (name : String) : DB → DB
  | [] => []
  | (n, t) :: rest => if n = name then dbErase name rest else (n, t) :: dbErase name rest

def dbSet (name : String) (t : Table) (db : DB) : DB :=
  dbErase name db ++ [(name, t)]

/-- The data columns `CreateTableFromData` derives from a decoded value (the
part after the implicit `id SERIAL PRIMARY KEY` column): a map yields one
column per key; a non-empty slice is dispatched on its FIRST element (map
head: columns from that first map; otherwise a single TEXT `value` column);
an empty slice and every other value yield a single JSONB `data` column. -/
def tableColumnsData : GoValue → List (String × String)
  | .VMap fields => fields.map (fun p => (p.1, getPostgreSQLType p.2))
  | .VArr (x :: _) =>
    match x with
    | .VMap ffs => ffs.map (fun p => (p.1, getPostgreSQLType p.2))
    | _ => [("value", "TEXT")]
  | .VArr [] => [("data", "JSONB")]
  | _ => [("data", "JSONB")]

/-- `CreateTableFromData`: DROP TABLE IF EXISTS then CREATE TABLE with the
inferred columns; in this model the DDL round-trips to the store without
failure, so the error component is always `none`. -/
def createTableFromData (name : String) (data : GoValue) (db : DB) : DB × Option String :=
  (dbSet name { columns := ("id", "SERIAL PRIMARY KEY") :: tableColumnsData data, rows := [] }
    (dbErase name db), none)

/-- Modelled from the spec: the relational store executes a parameterized
`INSERT INTO name (cols) VALUES (vals)` and accepts it exactly when the table
exists and every named column is present in its schema (spec section 4.6: an
element with an extra key fails its insert because the column does not
exist). A failed insert leaves the store unchanged. -/
def execInsert (name : String) (cols : List String) (vals : List GoValue) (db : DB) :
    DB × Option String :=
  match dbGet name db with
  | none => (db, some ("relation " ++ name ++ " does not exist"))
  | some t =>
    if cols.all (fun c => (t.columns.map Prod.fst).contains c) then
      (dbSet name { t with rows := t.rows ++ [cols.zip vals] } db, none)
    else
      (db, some "column does not exist")

/-- The binding `insertSingleRecord` performs on each value: slices and maps
are marshalled to JSON strings, everything else is passed through. -/
def bindParam : GoValue → GoValue
  | .VArr xs => .VString (jsonMarshal (.VArr xs))
  | .VMap fs => .VString (jsonMarshal (.VMap fs))
  | v => v

/-- `insertSingleRecord`: an empty record executes no statement; otherwise one
INSERT whose columns are the record's own keys and whose values are the
record's own bound values. -/
def insertSingleRecord (name : String) (record : List (String × GoValue)) (db : DB) :
    DB × Option String :=
  if record.isEmpty then (db, none)
  else execInsert name (record.map Prod.fst) (record.map (fun p => bindParam p.2)) db

/-- The loop `InsertDataToTable` runs for a slice whose first element is a
map: each map element is inserted as its own record, each non-map element is
silently skipped, and the first failing insert stops the loop. -/
def insertObjectRows (name : String) : List GoValue → DB → DB × Option String
  | [], db => (db, none)
  | x :: xs, db =>
    match x with
    | .VMap r =>
      match insertSingleRecord name r db with
      | (db1, some e) => (db1, some e)
      | (db1, none) => insertObjectRows name xs db1
    | _ => insertObjectRows name xs db

/-- The loop `InsertDataToTable` runs for a slice of primitives: one INSERT
into the `value` column per element, each element stringified with `%v`; the
first failing insert stops the loop. -/
def insertPrimRows (name : String) : List GoValue → DB → DB × Option String
  | [], db => (db, none)
  | x :: xs, db =>
    match execInsert name ["value"] [.VString (goSprintV x)] db with
    | (db1, some e) => (db1, some e)
    | (db1, none) => insertPrimRows name xs db1

/-- `InsertDataToTable`: dispatch on the dynamic type of the decoded value; a
map inserts one record; a non-empty slice dispatches on its first element; an
empty slice inserts nothing; every other value is marshalled to JSON and
inserted into the `data` column. -/
def insertDataToTable (name : String) (data : GoValue) (db : DB) : DB × Option String :=
  match data with
  | .VMap record => insertSingleRecord name record db
  | .VArr v =>
    match v with
    | [] => (db, none)
    | x :: xs =>
      match x with
      | .VMap _ => insertObjectRows name (x :: xs) db
      | _ => insertPrimRows name (x :: xs) db
  | _ => execInsert name ["data"] [.VString (jsonMarshal data)] db

/-- One materialization pass: create (drop-then-create) followed by insert,
as `ProcessRepository` performs for one function's decoded value. -/
def materializeDB (name : String) (data : GoValue) (db : DB) : DB :=
  (insertDataToTable name data (createTableFromData name data db).1).1

/-- `FunctionInfo`: extracted function metadata. -/
structure FunctionInfo where
  Name : String
  FilePath : String
  PackageName : String
  LineNumber : Nat
  Parameters : List String
  ReturnTypes : List String
  Comment : String
  IsExported : Bool
deriving Repr, DecidableEq

/-- `ProcessingResult`: the per-repository aggregate. -/
structure ProcessingResult where
  ProcessedFunctions : List FunctionInfo
  CreatedTables : List String
  Errors : List String
  ExecutedFunctions : List String
deriving Repr, DecidableEq

/-- The captured standard output of one subprocess run, tagged by whether
`json.Unmarshal` accepts it. -/
inductive CapturedOut where
  | validJson (j : Json)
  | notJson (text : String)

/-- The observable result of `cmd.Output()` for one generated program:
either an error (launch failure or non-zero exit) or captured stdout. -/
inductive ExecOutcome where
  | failure (msg : String)
  | success (out : CapturedOut)

/-- Runtime behaviour of one target function inside the generated program. -/
inductive FnBehavior where
  | returns (j : Json)
  | printsRaw (s : String)
  | panics
  | buildFails (msg : String)

/-- Semantics of running the program text produced by `generateMainFile` with
`go run`: a returning function prints its JSON-marshalled result and exits 0;
a function whose result does not marshal is printed raw and exits 0; a
panicking function hits the installed `recover` handler, which logs to
standard error only, so the process exits 0 with EMPTY standard output; a
program that fails to build or exits non-zero surfaces as a `cmd.Output`
error. -/
def runGeneratedMain : FnBehavior → ExecOutcome
  | .returns j => .success (.validJson j)
  | .printsRaw s => .success (.notJson s)
  | .panics => .success (.notJson "")
  | .buildFails m => .failure m

/-- `ExecuteFunction`: reject functions with parameters before any program is
synthesized; otherwise run the generated program, and decode its captured
output JSON-first with a trimmed-string fallback. -/
def executeFunctionE (exec : FunctionInfo → ExecOutcome) (fn : FunctionInfo) :
    Except String GoValue :=
  if fn.Parameters.length > 0 then
    .error ("function " ++ fn.Name ++ " requires parameters, skipping")
  else
    match exec fn with
    | .failure m => .error ("failed to execute function " ++ fn.Name ++ ": " ++ m)
    | .success (.validJson j) => .ok (decodeJson j)
    | .success (.notJson s) => .ok (.VString (goTrim s))

/-- Environment of one repository run: the file-level extraction results, the
subprocess behaviour of each function, and the store's response to the
create and insert stages. -/
structure PipeEnv where
  extract : String → Except String (List FunctionInfo)
  exec : FunctionInfo → ExecOutcome
  create : String → GoValue → DB → DB × Option String
  insert : String → GoValue → DB → DB × Option String

/-- The per-function body of `ProcessRepository`'s inner loop: append to
`ProcessedFunctions`, execute, and — when the decoded value is a non-nil
interface — create the table and insert the data, appending to
`CreatedTables` and `ExecutedFunctions` together on success and to `Errors`
on any stage failure. -/
def processFunction (env : PipeEnv) (st : DB × ProcessingResult) (fn : FunctionInfo) :
    DB × ProcessingResult :=
  let db := st.1
  let r1 := { st.2 with ProcessedFunctions := st.2.ProcessedFunctions ++ [fn] }
  match executeFunctionE env.exec fn with
  | .error e =>
    (db, { r1 with Errors := r1.Errors ++
      ["Failed to execute function " ++ fn.Name ++ ": " ++ e] })
  | .ok data =>
    if isNilV data then (db, r1)
    else
      match env.create fn.Name data db with
      | (db1, some e) =>
        (db1, { r1 with Errors := r1.Errors ++
          ["Failed to create table for " ++ fn.Name ++ ": " ++ e] })
      | (db1, none) =>
        match env.insert fn.Name data db1 with
        | (db2, some e) =>
          (db2, { r1 with Errors := r1.Errors ++
            ["Failed to insert data for " ++ fn.Name ++ ": " ++ e] })
        | (db2, none) =>
          (db2, { r1 with CreatedTables := r1.CreatedTables ++ [fn.Name],
                          ExecutedFunctions := r1.ExecutedFunctions ++ [fn.Name] })

/-- The per-file body of `ProcessRepository`'s outer loop: a failed extraction
appends one error and skips the file; otherwise every extracted function is
processed in order. -/
def processFile (env : PipeEnv) (st : DB × ProcessingResult) (filePath : String) :
    DB × ProcessingResult :=
  match env.extract filePath with
  | .error e =>
    (st.1, { st.2 with Errors := st.2.Errors ++
      ["Failed to extract functions from " ++ filePath ++ ": " ++ e] })
  | .ok fns => fns.foldl (processFunction env) st

def emptyResult : ProcessingResult :=
  { ProcessedFunctions := [], CreatedTables := [], Errors := [], ExecutedFunctions := [] }

/-- `ProcessRepository`'s file/function loop (after clone and connect have
succeeded): fold the per-file body over the scanner's output, starting from
the fresh result record. -/
def processRepository (env : PipeEnv) (files : List String) (db : DB) :
    DB × ProcessingResult :=
  files.foldl (processFile env) (db, emptyResult)

/-- The environment whose create and insert stages are the store semantics of
`CreateTableFromData` and `InsertDataToTable`. -/
def realEnv (extract : String → Except String (List FunctionInfo))
    (exec : FunctionInfo → ExecOutcome) : PipeEnv :=
  { extract := extract, exec := exec,
    create := createTableFromData, insert := insertDataToTable }

/-- Containment of one character list inside another at any position. -/
def hasSubList (pat : List Char) : List Char → Bool
  | [] => pat.isEmpty
  | c :: rest => pat.isPrefixOf (c :: rest) || hasSubList pat rest

/-- `strings.Contains s pat`. -/
def strContains (s pat : String) : Bool :=
  hasSubList pat.toList s.toList

/-- A directory tree as `filepath.Walk` traverses it: children are listed in
the walk's (lexical) visiting order. -/
inductive FSTree where
  | file (name : String)
  | dir (name : String) (children : List FSTree)

/-- The walk-callback exclusion test of `FindGoFiles`: the FULL path contains
`vendor/` or `.git/` as a substring, or the entry's own name ends in
`_test.go`. -/
def walkExcluded (path name : String) : Bool :=
  strContains path "vendor/" || strContains path ".git/" || strEndsWith name "_test.go"

/-- The per-file filter the walk's behaviour amounts to: not excluded, and
carrying the source suffix. -/
def goKeep (path name : String) : Bool :=
  !walkExcluded path name && strEndsWith name ".go"

mutual
/-- `FindGoFiles`' walk over one entry whose parent directory has path `p`:
an excluded file contributes nothing; an excluded directory is skipped whole
(`filepath.SkipDir`); a kept file is collected when its name ends in `.go`. -/
def findGoFilesT (p : String) (t : FSTree) : List String :=
  match t with
  | .file name =>
    if walkExcluded (p ++ "/" ++ name) name then []
    else if strEndsWith name ".go" then [p ++ "/" ++ name] else []
  | .dir name cs =>
    if walkExcluded (p ++ "/" ++ name) name then []
    else findGoFilesL (p ++ "/" ++ name) cs
termination_by structural t

def findGoFilesL (p : String) (ts : List FSTree) : List String :=
  match ts with
  | [] => []
  | t :: rest => findGoFilesT p t ++ findGoFilesL p rest
termination_by structural ts
end

mutual
/-- Modelled from the spec: the scanner contract of section 4.1 —
keep exactly the files ending in the source suffix whose names do not match
the test convention and none of whose path SEGMENTS equals a reserved
directory name (`vendor` or `.git`). -/
def specGoFilesT (p : String) (t : FSTree) : List String :=
  match t with
  | .file name =>
    if name = "vendor" || name = ".git" then []
    else if strEndsWith name ".go" && !strEndsWith name "_test.go" then [p ++ "/" ++ name] else []
  | .dir name cs =>
    if name = "vendor" || name = ".git" then []
    else specGoFilesL (p ++ "/" ++ name) cs
termination_by structural t

def specGoFilesL (p : String) (ts : List FSTree) : List String :=
  match ts with
  | [] => []
  | t :: rest => specGoFilesT p t ++ specGoFilesL p rest
termination_by structural ts
end

mutual
/-- Every file in the tree, as (full path, base name), in walk order, with no
filtering at all. -/
def allFilesT (p : String) (t : FSTree) : List (String × String) :=
  match t with
  | .file name => [(p ++ "/" ++ name, name)]
  | .dir name cs => allFilesL (p ++ "/" ++ name) cs
termination_by structural t

def allFilesL (p : String) (ts : List FSTree) : List (String × String) :=
  match ts with
  | [] => []
  | t :: rest => allFilesT p t ++ allFilesL p rest
termination_by structural ts
end

mutual
/-- No directory in the tree has a name ending in `_test.go` (directories
named like test files are skipped whole by the walk, which a pure filter over
file paths cannot see; every real repository satisfies this). -/
def dirsOkT (t : FSTree) : Bool :=
  match t with
  | .file _ => true
  | .dir name cs => !strEndsWith name "_test.go" && dirsOkL cs
termination_by structural t

def dirsOkL (ts : List FSTree) : Bool :=
  match ts with
  | [] => true
  | t :: rest => dirsOkT t && dirsOkL rest
termination_by structural ts
end

/-- A decoded Scalar in the spec's sense: string, number or bool (a Go int
never arises from JSON decoding but takes the same insert path). -/
def isScalarV : GoValue → Bool
  | .VBool _ => true
  | .VInt _ => true
  | .VFloat _ => true
  | .VString _ => true
  | _ => false

mutual
/-- Whether a dynamic value contains a Go integer-typed component anywhere —
the only values `getPostgreSQLType` ever maps to INTEGER. -/
def hasVInt (v : GoValue) : Bool :=
  match v with
  | .VInt _ => true
  | .VArr xs => hasVIntList xs
  | .VMap fs => hasVIntFields fs
  | _ => false
termination_by structural v

def hasVIntList (xs : List GoValue) : Bool :=
  match xs with
  | [] => false
  | x :: rest => hasVInt x || hasVIntList rest
termination_by structural xs

def hasVIntFields (fs : List (String × GoValue)) : Bool :=
  match fs with
  | [] => false
  | (_, v) :: rest => hasVInt v || hasVIntFields rest
termination_by structural fs
end

/-- The captured output `\x7b"a":1,"b":"x"\x7d` of the spec's decoding
round-trip property. -/
def objABJson : Json := .obj [("a", .num 1), ("b", .str "x")]

/-- A decoded mixed-type array whose first element is an object. -/
def mixedHeadObj : GoValue := decodeJson (.arr [.obj [("a", .num 1)], .num 2])

/-- A discovered zero-parameter function fixture. -/
def fnZeroEx : FunctionInfo :=
  { Name := "GetData", FilePath := "/tmp/repo/repo/main.go", PackageName := "main",
    LineNumber := 10, Parameters := [], ReturnTypes := ["string"],
    Comment := "", IsExported := true }

/-- A discovered two-parameter function fixture. -/
def fnParamEx : FunctionInfo :=
  { Name := "Add", FilePath := "/tmp/repo/repo/math.go", PackageName := "main",
    LineNumber := 3, Parameters := ["a int", "b int"], ReturnTypes := ["int"],
    Comment := "", IsExported := true }

/-- An environment whose single discovered function's subprocess output
decodes to JSON null. -/
def envNullEx : PipeEnv :=
  realEnv (fun _ => .ok [fnZeroEx]) (fun _ => runGeneratedMain (.returns .null))

/-- An environment whose single discovered function panics at runtime. -/
def envPanicEx : PipeEnv :=
  realEnv (fun _ => .ok [fnZeroEx]) (fun _ => runGeneratedMain .panics)

/-- The insert-stage outcome on the table freshly created for the same data:
the only store state an insert can ever see inside the per-function pipeline,
since create always drops and recreates. -/
def freshInsertErr (name : String) (data : GoValue) : Option String :=
  (insertDataToTable name data (createTableFromData name data []).1).2

/-- Every stage through the materializer succeeds for this function. -/
def fnSucceeds (exec : FunctionInfo → ExecOutcome) (fn : FunctionInfo) : Bool :=
  match executeFunctionE exec fn with
  | .error _ => false
  | .ok d => !isNilV d && (freshInsertErr fn.Name d).isNone

/-- Some stage fails for this function in a way that appends an error. -/
def fnErrs (exec : FunctionInfo → ExecOutcome) (fn : FunctionInfo) : Bool :=
  match executeFunctionE exec fn with
  | .error _ => true
  | .ok d => !isNilV d && (freshInsertErr fn.Name d).isSome

/-- All functions discovered across the scanner's file list, in processing
order (files whose extraction fails contribute none). -/
def discoveredFns (extract : String → Except String (List FunctionInfo))
    (files : List String) : List FunctionInfo :=
  files.flatMap (fun f => match extract f with | .ok l => l | .error _ => [])

/-- Extraction failed for this file. -/
def extractFails (extract : String → Except String (List FunctionInfo))
    (f : String) : Bool :=
  match extract f with | .ok _ => false | .error _ => true

theorem dbGet_erase_append (name : String) (db rest : DB) :
    dbGet name (dbErase name db ++ rest) = dbGet name rest := by
  induction db with
  | nil => rfl
  | cons p db ih =>
    obtain ⟨n, t⟩ := p
    by_cases h : n = name
    · simp [dbErase, h, ih]
    · simp [dbErase, h, dbGet, ih]

theorem dbGet_dbSet (name : String) (t : Table) (db : DB) :
    dbGet name (dbSet name t db) = some t := by
  simp [dbSet, dbGet_erase_append, dbGet]

theorem processFunction_created_eq (env : PipeEnv) (st : DB × ProcessingResult)
    (fn : FunctionInfo) (h : st.2.CreatedTables = st.2.ExecutedFunctions) :
    (processFunction env st fn).2.CreatedTables
      = (processFunction env st fn).2.ExecutedFunctions := by
  obtain ⟨db, res⟩ := st
  simp only [processFunction]
  split
  · simpa using h
  · split
    · simpa using h
    · split
      · simpa using h
      · split
        · simpa using h
        · simpa using h

theorem foldl_processFunction_created_eq (env : PipeEnv) (fns : List FunctionInfo)
    (st : DB × ProcessingResult) (h : st.2.CreatedTables = st.2.ExecutedFunctions) :
    (fns.foldl (processFunction env) st).2.CreatedTables
      = (fns.foldl (processFunction env) st).2.ExecutedFunctions := by
  induction fns generalizing st with
  | nil => simpa using h
  | cons fn fns ih =>
    exact ih (processFunction env st fn) (processFunction_created_eq env st fn h)

theorem processFile_created_eq (env : PipeEnv) (st : DB × ProcessingResult)
    (f : String) (h : st.2.CreatedTables = st.2.ExecutedFunctions) :
    (processFile env st f).2.CreatedTables = (processFile env st f).2.ExecutedFunctions := by
  obtain ⟨db, res⟩ := st
  simp only [processFile]
  split
  · simpa using h
  · exact foldl_processFunction_created_eq env _ _ h

/-- C10: in every `ProcessingResult` returned by repository processing,
`executedFunctions` and `createdTables` are identical sequences (same length,
same names, same order): the loop appends a function's name to both lists
together, exactly when its create and insert stages both succeeded. -/
theorem c10_created_tables_eq_executed_functions (env : PipeEnv) (files : List String)
    (db : DB) :
    (processRepository env files db).2.CreatedTables
      = (processRepository env files db).2.ExecutedFunctions := by
  have main : ∀ (fs : List String) (st : DB × ProcessingResult),
      st.2.CreatedTables = st.2.ExecutedFunctions →
      (fs.foldl (processFile env) st).2.CreatedTables
        = (fs.foldl (processFile env) st).2.ExecutedFunctions := by
    intro fs
    induction fs with
    | nil => intro st h; simpa using h
    | cons f fs ih =>
      intro st h
      exact ih (processFile env st f) (processFile_created_eq env st f h)
  exact main files (db, emptyResult) rfl

/-- C9: a discovered function with a non-empty parameter list is rejected
inside `ExecuteFunction` before any program synthesis — the outcome does not
depend on the subprocess environment at all — and the orchestrator's step for
it appends the function to `processedFunctions` and one rejection message to
`errors`, leaving `executedFunctions`, `createdTables` and the store
untouched. -/
theorem c9_nonempty_params_rejected (fn : FunctionInfo) (h : fn.Parameters ≠ [])
    (env : PipeEnv) (db : DB) (res : ProcessingResult) :
    executeFunctionE env.exec fn
      = .error ("function " ++ fn.Name ++ " requires parameters, skipping") ∧
    (∀ exec' : FunctionInfo → ExecOutcome,
      executeFunctionE exec' fn = executeFunctionE env.exec fn) ∧
    processFunction env (db, res) fn
      = (db, { res with
          ProcessedFunctions := res.ProcessedFunctions ++ [fn],
          Errors := res.Errors ++ ["Failed to execute function " ++ fn.Name ++ ": " ++
            ("function " ++ fn.Name ++ " requires parameters, skipping")] }) := by
  have hl : fn.Parameters.length > 0 := by
    cases hp : fn.Parameters with
    | nil => exact absurd hp h
    | cons a l => simp [hp]
  have he : executeFunctionE env.exec fn
      = .error ("function " ++ fn.Name ++ " requires parameters, skipping") := by
    simp [executeFunctionE, hl]
  refine ⟨he, fun exec' => ?_, ?_⟩
  · simp [executeFunctionE, hl]
  · simp only [processFunction, he]

/-- Witness for C9 at a concrete two-parameter function. -/
theorem c9_nonempty_params_rejected_witness :
    executeFunctionE (realEnv (fun _ => .ok []) (fun _ => .failure "boom")).exec fnParamEx
      = .error ("function " ++ fnParamEx.Name ++ " requires parameters, skipping") :=
  (c9_nonempty_params_rejected fnParamEx (by simp [fnParamEx])
    (realEnv (fun _ => .ok []) (fun _ => .failure "boom")) [] emptyResult).1

theorem execInsert_sim (name : String) (cols : List String) (vals : List GoValue)
    (db db' : DB) (h : dbGet name db = dbGet name db') :
    (execInsert name cols vals db).2 = (execInsert name cols vals db').2 ∧
    dbGet name (execInsert name cols vals db).1
      = dbGet name (execInsert name cols vals db').1 := by
  unfold execInsert
  rw [h]
  cases hT : dbGet name db' with
  | none => exact ⟨rfl, h⟩
  | some t =>
    dsimp only
    by_cases hc : (cols.all fun c => (t.columns.map Prod.fst).contains c) = true
    · rw [if_pos hc, if_pos hc]
      exact ⟨rfl, by rw [dbGet_dbSet, dbGet_dbSet]⟩
    · rw [if_neg hc, if_neg hc]
      exact ⟨rfl, h⟩

theorem insertSingleRecord_sim (name : String) (r : List (String × GoValue))
    (db db' : DB) (h : dbGet name db = dbGet name db') :
    (insertSingleRecord name r db).2 = (insertSingleRecord name r db').2 ∧
    dbGet name (insertSingleRecord name r db).1
      = dbGet name (insertSingleRecord name r db').1 := by
  simp only [insertSingleRecord]
  split
  · exact ⟨rfl, h⟩
  · exact execInsert_sim name _ _ db db' h

theorem insertObjectRows_sim (name : String) (xs : List GoValue) :
    ∀ db db', dbGet name db = dbGet name db' →
    (insertObjectRows name xs db).2 = (insertObjectRows name xs db').2 ∧
    dbGet name (insertObjectRows name xs db).1
      = dbGet name (insertObjectRows name xs db').1 := by
  induction xs with
  | nil => exact fun db db' h => ⟨rfl, h⟩
  | cons x xs ih =>
    intro db db' h
    cases x
    case VMap r =>
      have hs := insertSingleRecord_sim name r db db' h
      simp only [insertObjectRows]
      rcases h1 : insertSingleRecord name r db with ⟨db1, oe1⟩
      rcases h2 : insertSingleRecord name r db' with ⟨db2, oe2⟩
      rw [h1, h2] at hs
      have hoe : oe1 = oe2 := hs.1
      have hget : dbGet name db1 = dbGet name db2 := hs.2
      subst hoe
      cases oe1 with
      | some e => exact ⟨rfl, hget⟩
      | none => exact ih db1 db2 hget
    all_goals (simp only [insertObjectRows]; exact ih db db' h)

theorem insertPrimRows_sim (name : String) (xs : List GoValue) :
    ∀ db db', dbGet name db = dbGet name db' →
    (insertPrimRows name xs db).2 = (insertPrimRows name xs db').2 ∧
    dbGet name (insertPrimRows name xs db).1
      = dbGet name (insertPrimRows name xs db').1 := by
  induction xs with
  | nil => exact fun db db' h => ⟨rfl, h⟩
  | cons x xs ih =>
    intro db db' h
    have hs := execInsert_sim name ["value"] [.VString (goSprintV x)] db db' h
    simp only [insertPrimRows]
    rcases h1 : execInsert name ["value"] [.VString (goSprintV x)] db with ⟨db1, oe1⟩
    rcases h2 : execInsert name ["value"] [.VString (goSprintV x)] db' with ⟨db2, oe2⟩
    rw [h1, h2] at hs
    have hoe : oe1 = oe2 := hs.1
    have hget : dbGet name db1 = dbGet name db2 := hs.2
    subst hoe
    cases oe1 with
    | some e => exact ⟨rfl, hget⟩
    | none => exact ih db1 db2 hget

theorem insertDataToTable_sim (name : String) (data : GoValue) (db db' : DB)
    (h : dbGet name db = dbGet name db') :
    (insertDataToTable name data db).2 = (insertDataToTable name data db').2 ∧
    dbGet name (insertDataToTable name data db).1
      = dbGet name (insertDataToTable name data db').1 := by
  cases data
  case VMap r => exact insertSingleRecord_sim name r db db' h
  case VArr v =>
    cases v with
    | nil => exact ⟨rfl, h⟩
    | cons x xs =>
      cases x
      case VMap r => exact insertObjectRows_sim name (.VMap r :: xs) db db' h
      all_goals (simp only [insertDataToTable]; exact insertPrimRows_sim name _ db db' h)
  all_goals (simp only [insertDataToTable]; exact execInsert_sim name _ _ db db' h)

theorem materialize_get_congr (name : String) (data : GoValue) (db db' : DB) :
    dbGet name (materializeDB name data db) = dbGet name (materializeDB name data db') := by
  have h : dbGet name (createTableFromData name data db).1
      = dbGet name (createTableFromData name data db').1 := by
    simp [createTableFromData, dbGet_dbSet]
  exact (insertDataToTable_sim name data _ _ h).2

/-- C8: materializing the same function's decoded output twice in succession
yields the same table state — in particular the same schema (column names and
types) and the same row count — because the materializer unconditionally
drops any existing table of the same name before creating it. -/
theorem c8_materialize_idempotent (name : String) (data : GoValue) (db : DB) :
    dbGet name (materializeDB name data (materializeDB name data db))
      = dbGet name (materializeDB name data db) ∧
    (dbGet name (materializeDB name data (materializeDB name data db))).map Table.columns
      = (dbGet name (materializeDB name data db)).map Table.columns ∧
    (dbGet name (materializeDB name data (materializeDB name data db))).map
        (fun t => t.rows.length)
      = (dbGet name (materializeDB name data db)).map (fun t => t.rows.length) := by
  have h := materialize_get_congr name data (materializeDB name data db) db
  exact ⟨h, by rw [h], by rw [h]⟩

theorem execInsert_data_fresh (name : String) (val : GoValue) (db0 : DB) :
    execInsert name ["data"] [val]
      (dbSet name { columns := [("id", "SERIAL PRIMARY KEY"), ("data", "JSONB")],
                    rows := [] } db0)
      = (dbSet name
          { columns := [("id", "SERIAL PRIMARY KEY"), ("data", "JSONB")],
            rows := [[("data", val)]] }
          (dbSet name { columns := [("id", "SERIAL PRIMARY KEY"), ("data", "JSONB")],
                        rows := [] } db0),
         none) := by
  unfold execInsert
  rw [dbGet_dbSet]
  dsimp only
  rw [if_pos (by decide)]
  rfl

theorem insert_scalar_fresh (name : String) (v : GoValue) (db : DB)
    (hv : isScalarV v = true) :
    insertDataToTable name v (createTableFromData name v db).1
      = (dbSet name
          { columns := [("id", "SERIAL PRIMARY KEY"), ("data", "JSONB")],
            rows := [[("data", .VString (jsonMarshal v))]] }
          (createTableFromData name v db).1, none) := by
  cases v with
  | VNil => simp [isScalarV] at hv
  | VArr xs => simp [isScalarV] at hv
  | VMap fs => simp [isScalarV] at hv
  | VBool b => exact execInsert_data_fresh name (.VString (jsonMarshal (.VBool b))) _
  | VInt n => exact execInsert_data_fresh name (.VString (jsonMarshal (.VInt n))) _
  | VFloat q => exact execInsert_data_fresh name (.VString (jsonMarshal (.VFloat q))) _
  | VString s => exact execInsert_data_fresh name (.VString (jsonMarshal (.VString s))) _

/-- C2 counterexample: a zero-parameter function whose captured output is the
valid JSON document `null` is skipped by the `data != nil` guard — the run
produces NO table, the function appears in neither `executedFunctions` nor
`createdTables`, and no error is recorded, contradicting the claim that a
null-decoding function still produces a table and appears in those lists. -/
theorem c2_null_counterexample :
    (processRepository envNullEx ["/tmp/repo/repo/main.go"] []).2
      = { ProcessedFunctions := [fnZeroEx], CreatedTables := [],
          Errors := [], ExecutedFunctions := [] } ∧
    (processRepository envNullEx ["/tmp/repo/repo/main.go"] []).1 = [] :=
  ⟨rfl, rfl⟩

/-- C2 amended: a function whose decoded value is a (non-null) Scalar is
materialized into a table with the single JSON-typed `data` column holding
one row with the serialized scalar; but a function whose output decodes to
JSON null is silently skipped: no table, no entry in
`executedFunctions`/`createdTables`, and no error. -/
theorem c2_scalar_materialization :
    (∀ (name : String) (v : GoValue) (db : DB), isScalarV v = true →
      tableColumnsData v = [("data", "JSONB")] ∧
      dbGet name (materializeDB name v db)
        = some { columns := [("id", "SERIAL PRIMARY KEY"), ("data", "JSONB")],
                 rows := [[("data", .VString (jsonMarshal v))]] }) ∧
    (∀ (extract : String → Except String (List FunctionInfo))
       (exec : FunctionInfo → ExecOutcome) (fn : FunctionInfo)
       (db : DB) (res : ProcessingResult),
      fn.Parameters = [] → exec fn = runGeneratedMain (.returns .null) →
      processFunction (realEnv extract exec) (db, res) fn
        = (db, { res with ProcessedFunctions := res.ProcessedFunctions ++ [fn] })) := by
  constructor
  · intro name v db hv
    have hcols : tableColumnsData v = [("data", "JSONB")] := by
      cases v <;> simp_all [isScalarV, tableColumnsData]
    refine ⟨hcols, ?_⟩
    unfold materializeDB
    rw [insert_scalar_fresh name v db hv]
    exact dbGet_dbSet _ _ _
  · intro extract exec fn db res h hx
    have he : executeFunctionE exec fn = .ok .VNil := by
      simp [executeFunctionE, h, hx, runGeneratedMain, decodeJson]
    simp [processFunction, he, realEnv, isNilV]

/-- Witness for C2 at the scalar `"Hello"` (the spec's plain-string example). -/
theorem c2_scalar_materialization_witness :
    tableColumnsData (.VString "Hello") = [("data", "JSONB")] ∧
    dbGet "t" (materializeDB "t" (.VString "Hello") [])
      = some { columns := [("id", "SERIAL PRIMARY KEY"), ("data", "JSONB")],
               rows := [[("data", .VString "\"Hello\"")]] } :=
  (c2_scalar_materialization.1 "t" (.VString "Hello") [] rfl)

/-- C5 counterexample: a zero-parameter function that panics at runtime hits
the generated program's recover handler, which logs to standard error and
lets the process exit 0 with empty standard output; the pipeline therefore
treats the run as a SUCCESS — the function lands in `createdTables` and
`executedFunctions` with a table holding the serialized empty string, and NO
entry is appended to `errors` — contradicting the claim that a panic becomes
an attributable ExecutionError. -/
theorem c5_panic_counterexample :
    (processRepository envPanicEx ["/tmp/repo/repo/main.go"] []).2
      = { ProcessedFunctions := [fnZeroEx], CreatedTables := ["GetData"],
          Errors := [], ExecutedFunctions := ["GetData"] } ∧
    dbGet "GetData" (processRepository envPanicEx ["/tmp/repo/repo/main.go"] []).1
      = some { columns := [("id", "SERIAL PRIMARY KEY"), ("data", "JSONB")],
               rows := [[("data", .VString "\"\"")]] } :=
  ⟨rfl, rfl⟩

/-- C5 amended: a zero-parameter function whose subprocess panics is NOT
surfaced as a failure: the recover handler makes the subprocess exit 0 with
empty stdout, the JSON-first decode falls back to the empty trimmed string,
and the pipeline materializes a `data`-column table holding the serialized
empty string; the function is appended to `createdTables` and
`executedFunctions` and nothing is appended to `errors`. -/
theorem c5_panic_swallowed (extract : String → Except String (List FunctionInfo))
    (exec : FunctionInfo → ExecOutcome) (fn : FunctionInfo)
    (db : DB) (res : ProcessingResult)
    (h : fn.Parameters = []) (hx : exec fn = runGeneratedMain .panics) :
    executeFunctionE exec fn = .ok (.VString "") ∧
    processFunction (realEnv extract exec) (db, res) fn
      = (materializeDB fn.Name (.VString "") db,
         { res with ProcessedFunctions := res.ProcessedFunctions ++ [fn],
                    CreatedTables := res.CreatedTables ++ [fn.Name],
                    ExecutedFunctions := res.ExecutedFunctions ++ [fn.Name] }) ∧
    dbGet fn.Name (materializeDB fn.Name (.VString "") db)
      = some { columns := [("id", "SERIAL PRIMARY KEY"), ("data", "JSONB")],
               rows := [[("data", .VString "\"\"")]] } := by
  have he : executeFunctionE exec fn = .ok (.VString "") := by
    simp [executeFunctionE, h, hx, runGeneratedMain]
    rfl
  have hins := insert_scalar_fresh fn.Name (.VString "") db rfl
  refine ⟨he, ?_, ?_⟩
  · simp only [processFunction, he, realEnv, isNilV]
    rw [show createTableFromData fn.Name (.VString "") db
        = ((createTableFromData fn.Name (.VString "") db).1, none) from rfl]
    dsimp only
    rw [hins]
    unfold materializeDB
    rw [hins]
    rfl
  · unfold materializeDB
    rw [hins]
    exact dbGet_dbSet _ _ _

/-- Witness for C5 at the concrete panicking environment. -/
theorem c5_panic_swallowed_witness :
    executeFunctionE envPanicEx.exec fnZeroEx = .ok (.VString "") :=
  (c5_panic_swallowed (fun _ => .ok [fnZeroEx]) (fun _ => runGeneratedMain .panics)
    fnZeroEx [] emptyResult rfl rfl).1

mutual
theorem hasVInt_decode (j : Json) : hasVInt (decodeJson j) = false :=
  match j with
  | .null => rfl
  | .bool _ => rfl
  | .num _ => rfl
  | .str _ => rfl
  | .arr xs => by simpa [decodeJson, hasVInt] using hasVInt_decodeList xs
  | .obj fs => by simpa [decodeJson, hasVInt] using hasVInt_decodeFields fs
termination_by structural j

theorem hasVInt_decodeList (xs : List Json) : hasVIntList (decodeJsonList xs) = false :=
  match xs with
  | [] => rfl
  | x :: rest => by
    simp [decodeJsonList, hasVIntList, hasVInt_decode x, hasVInt_decodeList rest]
termination_by structural xs

theorem hasVInt_decodeFields (fs : List (String × Json)) :
    hasVIntFields (decodeJsonFields fs) = false :=
  match fs with
  | [] => rfl
  | (k, v) :: rest => by
    simp [decodeJsonFields, hasVIntFields, hasVInt_decode v, hasVInt_decodeFields rest]
termination_by structural fs
end

/-- C1 counterexample: for the captured output encoding `\x7b"a":1,"b":"x"\x7d`
the decoded field `a` is a float64 (the JSON decoder produces float64 for
every number), so its column is typed NUMERIC — no column of the resulting
TableSpec is typed INTEGER, contradicting the claimed INTEGER/TEXT pair. -/
theorem c1_integer_counterexample :
    (tableColumnsData (decodeJson objABJson)).map Prod.snd = ["NUMERIC", "TEXT"] ∧
    ("INTEGER" ∈ (tableColumnsData (decodeJson objABJson)).map Prod.snd → False) :=
  ⟨rfl, by decide⟩

/-- C1 amended: the type-mapping function follows the source's fixed case
order — Go integer kinds to INTEGER, float kinds to NUMERIC, bool to BOOLEAN,
nested slice or map to JSONB, everything else (strings included) to TEXT —
but the JSON decoder never produces a Go integer, so for the captured output
encoding `\x7b"a":1,"b":"x"\x7d` the TableSpec has exactly two data columns
typed NUMERIC and TEXT, and exactly one row (1, "x") is inserted. -/
theorem c1_type_mapping_amended :
    (∀ n : Int, getPostgreSQLType (.VInt n) = "INTEGER") ∧
    (∀ q : ℚ, getPostgreSQLType (.VFloat q) = "NUMERIC") ∧
    (∀ b : Bool, getPostgreSQLType (.VBool b) = "BOOLEAN") ∧
    (∀ xs : List GoValue, getPostgreSQLType (.VArr xs) = "JSONB") ∧
    (∀ fs : List (String × GoValue), getPostgreSQLType (.VMap fs) = "JSONB") ∧
    (∀ s : String, getPostgreSQLType (.VString s) = "TEXT") ∧
    (∀ j : Json, hasVInt (decodeJson j) = false) ∧
    tableColumnsData (decodeJson objABJson) = [("a", "NUMERIC"), ("b", "TEXT")] ∧
    dbGet "GetData" (materializeDB "GetData" (decodeJson objABJson) [])
      = some { columns := [("id", "SERIAL PRIMARY KEY"), ("a", "NUMERIC"), ("b", "TEXT")],
               rows := [[("a", .VFloat 1), ("b", .VString "x")]] } :=
  ⟨fun _ => rfl, fun _ => rfl, fun _ => rfl, fun _ => rfl, fun _ => rfl, fun _ => rfl,
   hasVInt_decode, rfl, rfl⟩

theorem insertPrimRows_value (name : String) (xs : List GoValue) :
    ∀ (db : DB) (t : Table), dbGet name db = some t →
    ((t.columns.map Prod.fst).contains "value") = true →
    (insertPrimRows name xs db).2 = none ∧
    dbGet name (insertPrimRows name xs db).1
      = some { t with rows := t.rows ++ xs.map (fun e => [("value", .VString (goSprintV e))]) } := by
  induction xs with
  | nil =>
    intro db t h hc
    refine ⟨rfl, ?_⟩
    simpa [insertPrimRows] using h
  | cons x rest ih =>
    intro db t h hc
    have hx : execInsert name ["value"] [.VString (goSprintV x)] db
        = (dbSet name { t with rows := t.rows ++ [[("value", .VString (goSprintV x))]] } db,
           none) := by
      unfold execInsert
      rw [h]
      dsimp only
      rw [if_pos (by simp only [List.all_cons, List.all_nil, hc, Bool.and_true])]
      rfl
    simp only [insertPrimRows, hx]
    have := ih (dbSet name { t with rows := t.rows ++ [[("value", .VString (goSprintV x))]] } db)
      { t with rows := t.rows ++ [[("value", .VString (goSprintV x))]] }
      (dbGet_dbSet _ _ _) hc
    refine ⟨this.1, ?_⟩
    rw [this.2]
    simp [List.append_assoc]

/-- C4 counterexample: the decoded mixed-type array `[ \x7b"a":1\x7d, 2 ]` is
NOT treated as a PrimitiveArray: because its FIRST element is an object, the
table is created with the first object's columns (`a NUMERIC`), not the
single TEXT `value` column, and the non-object element `2` is silently
skipped at insertion rather than stringified. -/
theorem c4_mixed_array_counterexample :
    tableColumnsData mixedHeadObj = [("a", "NUMERIC")] ∧
    (tableColumnsData mixedHeadObj = [("value", "TEXT")] → False) ∧
    dbGet "t" (materializeDB "t" mixedHeadObj [])
      = some { columns := [("id", "SERIAL PRIMARY KEY"), ("a", "NUMERIC")],
               rows := [[("a", .VFloat 1)]] } :=
  ⟨rfl, by decide, rfl⟩

/-- C4 amended: the array classification looks only at the FIRST element: a
non-object head yields the PrimitiveArray treatment — single TEXT `value`
column and one row per element, each element (object or not) stringified
individually with `%v` — while an object head yields the ObjectArray
treatment with columns from that first object, and any non-object element of
such an array is silently skipped at insertion time. -/
theorem c4_first_element_classification :
    (∀ (x : GoValue) (xs : List GoValue), isMapV x = false →
      tableColumnsData (.VArr (x :: xs)) = [("value", "TEXT")]) ∧
    (∀ (fs : List (String × GoValue)) (rest : List GoValue),
      tableColumnsData (.VArr (.VMap fs :: rest))
        = fs.map (fun p => (p.1, getPostgreSQLType p.2))) ∧
    (∀ (name : String) (x : GoValue) (xs : List GoValue) (db : DB), isMapV x = false →
      insertObjectRows name (x :: xs) db = insertObjectRows name xs db) ∧
    (∀ (name : String) (x : GoValue) (xs : List GoValue) (db : DB), isMapV x = false →
      dbGet name (materializeDB name (.VArr (x :: xs)) db)
        = some { columns := [("id", "SERIAL PRIMARY KEY"), ("value", "TEXT")],
                 rows := (x :: xs).map (fun e => [("value", .VString (goSprintV e))]) }) := by
  refine ⟨?_, ?_, ?_, ?_⟩
  · intro x xs hx
    cases x <;> simp_all [isMapV, tableColumnsData]
  · intro fs rest
    rfl
  · intro name x xs db hx
    cases x <;> simp_all [isMapV, insertObjectRows]
  · intro name x xs db hx
    have hcols : tableColumnsData (.VArr (x :: xs)) = [("value", "TEXT")] := by
      cases x <;> simp_all [isMapV, tableColumnsData]
    have hdisp : insertDataToTable name (.VArr (x :: xs))
        (createTableFromData name (.VArr (x :: xs)) db).1
        = insertPrimRows name (x :: xs) (createTableFromData name (.VArr (x :: xs)) db).1 := by
      cases x <;> simp_all [isMapV, insertDataToTable]
    have hget : dbGet name (createTableFromData name (.VArr (x :: xs)) db).1
        = some { columns := ("id", "SERIAL PRIMARY KEY") :: tableColumnsData (.VArr (x :: xs)),
                 rows := [] } := by
      unfold createTableFromData
      exact dbGet_dbSet _ _ _
    rw [hcols] at hget
    have hmain := insertPrimRows_value name (x :: xs) _ _ hget (by decide)
    unfold materializeDB
    rw [hdisp, hmain.2]
    simp

/-- Witness for C4 at the concrete primitive array `[1, 2, 3]`. -/
theorem c4_first_element_classification_witness :
    dbGet "t" (materializeDB "t" (decodeJson (.arr [.num 1, .num 2, .num 3])) [])
      = some { columns := [("id", "SERIAL PRIMARY KEY"), ("value", "TEXT")],
               rows := [[("value", .VString "1")], [("value", .VString "2")],
                        [("value", .VString "3")]] } := by
  have h := (c4_first_element_classification.2.2.2) "t" (.VFloat 1) [.VFloat 2, .VFloat 3] [] rfl
  simpa [goSprintV, ratRepr] using h

/-- C6: for an array of objects the schema is derived only from the first
element; each element is inserted with its OWN keys and bound values (not
forced through the first element's schema); and an element carrying a key
that is not among the table's columns fails its insert — the store (and so
the schema) is left unchanged rather than widened. -/
theorem c6_first_element_schema (fs : List (String × GoValue)) (rest : List GoValue)
    (name : String) (r : List (String × GoValue)) (db : DB) (t : Table) (k : String)
    (hr : r.isEmpty = false) (h : dbGet name db = some t)
    (hk : k ∈ r.map Prod.fst) (hnk : k ∉ t.columns.map Prod.fst) :
    tableColumnsData (.VArr (.VMap fs :: rest)) = tableColumnsData (.VArr [.VMap fs]) ∧
    insertSingleRecord name r db
      = execInsert name (r.map Prod.fst) (r.map (fun p => bindParam p.2)) db ∧
    insertSingleRecord name r db = (db, some "column does not exist") := by
  have hcond : ¬(((r.map Prod.fst).all
      (fun c => (t.columns.map Prod.fst).contains c)) = true) := by
    intro hall
    have hcon := List.all_eq_true.mp hall k hk
    exact hnk (by simpa using hcon)
  refine ⟨rfl, ?_, ?_⟩
  · unfold insertSingleRecord
    rw [if_neg (by simp [hr])]
  · unfold insertSingleRecord
    rw [if_neg (by simp [hr])]
    unfold execInsert
    rw [h]
    dsimp only
    rw [if_neg hcond]

/-- Witness for C6: a two-object array where the second object carries the
extra key `extra` absent from the first object's schema. -/
theorem c6_first_element_schema_witness :
    insertSingleRecord "GetItems" [("n", .VString "B"), ("extra", .VString "C")]
      [("GetItems", { columns := [("id", "SERIAL PRIMARY KEY"), ("n", "TEXT")],
                      rows := [] : Table })]
      = ([("GetItems", { columns := [("id", "SERIAL PRIMARY KEY"), ("n", "TEXT")],
                         rows := [] : Table })],
         some "column does not exist") :=
  (c6_first_element_schema [("n", .VString "A")] [] "GetItems"
    [("n", .VString "B"), ("extra", .VString "C")]
    [("GetItems", { columns := [("id", "SERIAL PRIMARY KEY"), ("n", "TEXT")], rows := [] })]
    { columns := [("id", "SERIAL PRIMARY KEY"), ("n", "TEXT")], rows := [] }
    "extra" rfl rfl (by decide) (by decide)).2.2

theorem insert_after_create_err (name : String) (d : GoValue) (db : DB) :
    (insertDataToTable name d (createTableFromData name d db).1).2
      = freshInsertErr name d := by
  have h : dbGet name (createTableFromData name d db).1
      = dbGet name (createTableFromData name d []).1 := by
    simp [createTableFromData, dbGet_dbSet]
  exact (insertDataToTable_sim name d _ _ h).1

theorem processFunction_real (extract : String → Except String (List FunctionInfo))
    (exec : FunctionInfo → ExecOutcome) (db : DB) (res : ProcessingResult)
    (fn : FunctionInfo) :
    (processFunction (realEnv extract exec) (db, res) fn).2.ProcessedFunctions
      = res.ProcessedFunctions ++ [fn] ∧
    (processFunction (realEnv extract exec) (db, res) fn).2.ExecutedFunctions
      = res.ExecutedFunctions ++ (if fnSucceeds exec fn then [fn.Name] else []) ∧
    (processFunction (realEnv extract exec) (db, res) fn).2.CreatedTables
      = res.CreatedTables ++ (if fnSucceeds exec fn then [fn.Name] else []) ∧
    (processFunction (realEnv extract exec) (db, res) fn).2.Errors.length
      = res.Errors.length + (if fnErrs exec fn then 1 else 0) := by
  cases hE : executeFunctionE exec fn with
  | error e =>
    have hs : fnSucceeds exec fn = false := by simp [fnSucceeds, hE]
    have he : fnErrs exec fn = true := by simp [fnErrs, hE]
    simp [processFunction, hE, hs, he, realEnv]
  | ok d =>
    cases hN : isNilV d with
    | true =>
      have hs : fnSucceeds exec fn = false := by simp [fnSucceeds, hE, hN]
      have he : fnErrs exec fn = false := by simp [fnErrs, hE, hN]
      simp [processFunction, hE, hN, hs, he, realEnv]
    | false =>
      have hfresh := insert_after_create_err fn.Name d db
      rcases hI : insertDataToTable fn.Name d (createTableFromData fn.Name d db).1
        with ⟨db2, oe⟩
      rw [hI] at hfresh
      cases oe with
      | some e =>
        have hs : fnSucceeds exec fn = false := by
          simp [fnSucceeds, hE, hN, ← hfresh]
        have he : fnErrs exec fn = true := by
          simp [fnErrs, hE, hN, ← hfresh]
        simp only [processFunction, hE, hN, realEnv]
        rw [show createTableFromData fn.Name d db
            = ((createTableFromData fn.Name d db).1, none) from rfl]
        dsimp only
        rw [hI]
        simp [hs, he]
      | none =>
        have hs : fnSucceeds exec fn = true := by
          simp [fnSucceeds, hE, hN, ← hfresh]
        have he : fnErrs exec fn = false := by
          simp [fnErrs, hE, hN, ← hfresh]
        simp only [processFunction, hE, hN, realEnv]
        rw [show createTableFromData fn.Name d db
            = ((createTableFromData fn.Name d db).1, none) from rfl]
        dsimp only
        rw [hI]
        simp [hs, he]

theorem foldl_processFunction_real (extract : String → Except String (List FunctionInfo))
    (exec : FunctionInfo → ExecOutcome) (fns : List FunctionInfo) :
    ∀ (db : DB) (res : ProcessingResult),
    (fns.foldl (processFunction (realEnv extract exec)) (db, res)).2.ProcessedFunctions
      = res.ProcessedFunctions ++ fns ∧
    (fns.foldl (processFunction (realEnv extract exec)) (db, res)).2.ExecutedFunctions
      = res.ExecutedFunctions ++ (fns.filter (fnSucceeds exec)).map FunctionInfo.Name ∧
    (fns.foldl (processFunction (realEnv extract exec)) (db, res)).2.CreatedTables
      = res.CreatedTables ++ (fns.filter (fnSucceeds exec)).map FunctionInfo.Name ∧
    (fns.foldl (processFunction (realEnv extract exec)) (db, res)).2.Errors.length
      = res.Errors.length + fns.countP (fnErrs exec) := by
  induction fns with
  | nil => intro db res; simp
  | cons fn fns ih =>
    intro db res
    rcases hP : processFunction (realEnv extract exec) (db, res) fn with ⟨db1, res1⟩
    have hstep := processFunction_real extract exec db res fn
    rw [hP] at hstep
    have hrest := ih db1 res1
    simp only [List.foldl_cons, hP]
    obtain ⟨h1, h2, h3, h4⟩ := hrest
    obtain ⟨s1, s2, s3, s4⟩ := hstep
    refine ⟨?_, ?_, ?_, ?_⟩
    · rw [h1, s1]; simp
    · rw [h2, s2, List.filter_cons]
      by_cases hs : fnSucceeds exec fn <;> simp [hs, List.append_assoc]
    · rw [h3, s3, List.filter_cons]
      by_cases hs : fnSucceeds exec fn <;> simp [hs, List.append_assoc]
    · rw [h4, s4, List.countP_cons]
      by_cases hs : fnErrs exec fn = true
      · simp only [hs, if_true]
        omega
      · simp only [hs, if_false]
        omega

theorem processFile_real (extract : String → Except String (List FunctionInfo))
    (exec : FunctionInfo → ExecOutcome) (f : String) (db : DB) (res : ProcessingResult) :
    (processFile (realEnv extract exec) (db, res) f).2.ProcessedFunctions
      = res.ProcessedFunctions ++ discoveredFns extract [f] ∧
    (processFile (realEnv extract exec) (db, res) f).2.ExecutedFunctions
      = res.ExecutedFunctions
        ++ ((discoveredFns extract [f]).filter (fnSucceeds exec)).map FunctionInfo.Name ∧
    (processFile (realEnv extract exec) (db, res) f).2.CreatedTables
      = res.CreatedTables
        ++ ((discoveredFns extract [f]).filter (fnSucceeds exec)).map FunctionInfo.Name ∧
    (processFile (realEnv extract exec) (db, res) f).2.Errors.length
      = res.Errors.length + (if extractFails extract f then 1 else 0)
        + (discoveredFns extract [f]).countP (fnErrs exec) := by
  cases hx : extract f with
  | error e =>
    simp [processFile, realEnv, hx, discoveredFns, extractFails]
  | ok fns =>
    have hd : discoveredFns extract [f] = fns := by
      simp [discoveredFns, hx]
    have hf : extractFails extract f = false := by
      simp [extractFails, hx]
    have hmain := foldl_processFunction_real extract exec fns db res
    simp only [processFile, realEnv, hx, hd, hf, if_neg]
    simpa using hmain

/-- C3 counterexample: one discovered zero-parameter function whose output
decodes to JSON null is absent from `executedFunctions` yet contributes NO
entry to `errors` — the nil-guard drops it silently — contradicting the
claim that every zero-parameter discovered function missing from
`executedFunctions` contributes at least one error entry. -/
theorem c3_silent_null_counterexample :
    (processRepository envNullEx ["/tmp/repo/repo/main.go"] []).2.ProcessedFunctions
      = [fnZeroEx] ∧
    fnZeroEx.Parameters = [] ∧
    (processRepository envNullEx ["/tmp/repo/repo/main.go"] []).2.ExecutedFunctions = [] ∧
    (processRepository envNullEx ["/tmp/repo/repo/main.go"] []).2.Errors = [] :=
  ⟨rfl, rfl, rfl, rfl⟩

/-- C3 amended: every discovered function appears in `processedFunctions`
exactly once and in discovery order (the batch never aborts early);
`executedFunctions` and `createdTables` are exactly the names of the
functions for which every stage through the materializer succeeded; the
number of error entries is exactly the number of failed extractions plus the
number of functions failing at some stage; and a function that neither
succeeded nor produced an error entry is precisely one whose decoded value
was the nil interface (JSON null) — the one silently dropped case. -/
theorem c3_batch_accounting (extract : String → Except String (List FunctionInfo))
    (exec : FunctionInfo → ExecOutcome) (files : List String) (db : DB) :
    (processRepository (realEnv extract exec) files db).2.ProcessedFunctions
      = discoveredFns extract files ∧
    (processRepository (realEnv extract exec) files db).2.ExecutedFunctions
      = ((discoveredFns extract files).filter (fnSucceeds exec)).map FunctionInfo.Name ∧
    (processRepository (realEnv extract exec) files db).2.CreatedTables
      = ((discoveredFns extract files).filter (fnSucceeds exec)).map FunctionInfo.Name ∧
    (processRepository (realEnv extract exec) files db).2.Errors.length
      = files.countP (extractFails extract)
        + (discoveredFns extract files).countP (fnErrs exec) ∧
    (∀ fn : FunctionInfo, fnSucceeds exec fn = false → fnErrs exec fn = false →
      executeFunctionE exec fn = .ok .VNil) := by
  have main : ∀ (fs : List String) (db0 : DB) (res : ProcessingResult),
      (fs.foldl (processFile (realEnv extract exec)) (db0, res)).2.ProcessedFunctions
        = res.ProcessedFunctions ++ discoveredFns extract fs ∧
      (fs.foldl (processFile (realEnv extract exec)) (db0, res)).2.ExecutedFunctions
        = res.ExecutedFunctions
          ++ ((discoveredFns extract fs).filter (fnSucceeds exec)).map FunctionInfo.Name ∧
      (fs.foldl (processFile (realEnv extract exec)) (db0, res)).2.CreatedTables
        = res.CreatedTables
          ++ ((discoveredFns extract fs).filter (fnSucceeds exec)).map FunctionInfo.Name ∧
      (fs.foldl (processFile (realEnv extract exec)) (db0, res)).2.Errors.length
        = res.Errors.length + fs.countP (extractFails extract)
          + (discoveredFns extract fs).countP (fnErrs exec) := by
    intro fs
    induction fs with
    | nil => intro db0 res; simp [discoveredFns]
    | cons f fs ih =>
      intro db0 res
      rcases hP : processFile (realEnv extract exec) (db0, res) f with ⟨db1, res1⟩
      have hstep := processFile_real extract exec f db0 res
      rw [hP] at hstep
      have hrest := ih db1 res1
      obtain ⟨h1, h2, h3, h4⟩ := hrest
      obtain ⟨s1, s2, s3, s4⟩ := hstep
      have hdis : discoveredFns extract (f :: fs)
          = discoveredFns extract [f] ++ discoveredFns extract fs := by
        simp [discoveredFns]
      simp only [List.foldl_cons, hP]
      refine ⟨?_, ?_, ?_, ?_⟩
      · rw [h1, s1, hdis, List.append_assoc]
      · rw [h2, s2, hdis]
        simp [List.append_assoc]
      · rw [h3, s3, hdis]
        simp [List.append_assoc]
      · rw [h4, s4, hdis, List.countP_cons, List.countP_append]
        by_cases hf : extractFails extract f = true <;> simp [hf] <;> omega
  have hfinal := main files db emptyResult
  refine ⟨by simpa [emptyResult] using hfinal.1,
          by simpa [emptyResult] using hfinal.2.1,
          by simpa [emptyResult] using hfinal.2.2.1,
          by simpa [emptyResult] using hfinal.2.2.2, ?_⟩
  intro fn hs he
  cases hE : executeFunctionE exec fn with
  | error e =>
    rw [fnErrs, hE] at he
    exact absurd he (by simp)
  | ok d =>
    cases hN : isNilV d with
    | true =>
      have hdn : d = .VNil := by cases d <;> simp_all [isNilV]
      rw [hdn]
    | false =>
      rw [fnSucceeds, hE] at hs
      rw [fnErrs, hE] at he
      simp only [hN, Bool.not_false, Bool.true_and] at hs he
      cases hF : freshInsertErr fn.Name d with
      | none => rw [hF] at hs; exact absurd hs (by simp)
      | some e => rw [hF] at he; exact absurd he (by simp)

theorem isPrefixOf_append_of (l1 l2 l3 : List Char) (h : l1.isPrefixOf l2 = true) :
    l1.isPrefixOf (l2 ++ l3) = true := by
  rw [List.isPrefixOf_iff_prefix] at h ⊢
  exact h.trans (List.prefix_append l2 l3)

theorem hasSubList_nil_pat (l : List Char) : hasSubList [] l = true := by
  induction l with
  | nil => rfl
  | cons c rest ih => simp [hasSubList, List.isPrefixOf]

theorem hasSubList_append (pat l l' : List Char) (h : hasSubList pat l = true) :
    hasSubList pat (l ++ l') = true := by
  induction l with
  | nil =>
    have hp : pat = [] := by simpa [hasSubList] using h
    subst hp
    exact hasSubList_nil_pat l'
  | cons c rest ih =>
    simp only [hasSubList, Bool.or_eq_true, List.cons_append] at h ⊢
    rcases h with h | h
    · exact Or.inl (isPrefixOf_append_of pat (c :: rest) l' h)
    · exact Or.inr (ih h)

theorem strContains_append (s t pat : String) (h : strContains s pat = true) :
    strContains (s ++ t) pat = true := by
  unfold strContains at h ⊢
  rw [show (s ++ t).toList = s.toList ++ t.toList by simp]
  exact hasSubList_append _ _ _ h

mutual
theorem allFilesT_ext (p : String) (t : FSTree) :
    ∀ e ∈ allFilesT p t, ∃ q : String, e.1 = p ++ q :=
  match t with
  | .file name => by
    intro e he
    simp only [allFilesT, List.mem_singleton] at he
    exact ⟨"/" ++ name, by rw [he]; simp [String.append_assoc]⟩
  | .dir name cs => by
    intro e he
    have hrec := allFilesL_ext (p ++ "/" ++ name) cs e (by simpa [allFilesT] using he)
    rcases hrec with ⟨q, hq⟩
    exact ⟨"/" ++ name ++ q, by rw [hq]; simp [String.append_assoc]⟩
termination_by structural t

theorem allFilesL_ext (p : String) (ts : List FSTree) :
    ∀ e ∈ allFilesL p ts, ∃ q : String, e.1 = p ++ q :=
  match ts with
  | [] => by intro e he; simp [allFilesL] at he
  | t :: rest => by
    intro e he
    simp only [allFilesL, List.mem_append] at he
    rcases he with he | he
    · exact allFilesT_ext p t e he
    · exact allFilesL_ext p rest e he
termination_by structural ts
end

mutual
theorem findGoFiles_eq_filter_T (p : String) (t : FSTree) (hd : dirsOkT t = true) :
    findGoFilesT p t = ((allFilesT p t).filter (fun e => goKeep e.1 e.2)).map Prod.fst :=
  match t with
  | .file name => by
    simp only [findGoFilesT, allFilesT, goKeep]
    by_cases hw : walkExcluded (p ++ "/" ++ name) name = true
    · simp [hw]
    · by_cases hg : strEndsWith name ".go" = true
      · simp [hw, hg]
      · simp [hw, hg]
  | .dir name cs => by
    rw [dirsOkT, Bool.and_eq_true, Bool.not_eq_true'] at hd
    obtain ⟨hd1, hd2⟩ := hd
    by_cases hw : walkExcluded (p ++ "/" ++ name) name = true
    · simp only [findGoFilesT, allFilesT, hw, if_pos]
      have hsub : strContains (p ++ "/" ++ name) "vendor/" = true ∨
          strContains (p ++ "/" ++ name) ".git/" = true := by
        rw [walkExcluded, hd1, Bool.or_false, Bool.or_eq_true] at hw
        exact hw
      symm
      rw [List.map_eq_nil_iff, List.filter_eq_nil_iff]
      intro e he
      rcases allFilesL_ext (p ++ "/" ++ name) cs e he with ⟨q, hq⟩
      have hexe : walkExcluded e.1 e.2 = true := by
        rw [walkExcluded, hq]
        rcases hsub with hsub | hsub
        · rw [strContains_append _ _ _ hsub]
          rfl
        · rw [strContains_append _ _ _ hsub]
          simp
      simp [goKeep, hexe]
    · simp only [findGoFilesT, allFilesT, hw, if_neg]
      exact findGoFiles_eq_filter_L (p ++ "/" ++ name) cs hd2
termination_by structural t

theorem findGoFiles_eq_filter_L (p : String) (ts : List FSTree) (hd : dirsOkL ts = true) :
    findGoFilesL p ts = ((allFilesL p ts).filter (fun e => goKeep e.1 e.2)).map Prod.fst :=
  match ts with
  | [] => rfl
  | t :: rest => by
    rw [dirsOkL, Bool.and_eq_true] at hd
    obtain ⟨h1, h2⟩ := hd
    simp only [findGoFilesL, allFilesL, List.filter_append, List.map_append]
    rw [findGoFiles_eq_filter_T p t h1, findGoFiles_eq_filter_L p rest h2]
termination_by structural ts
end

/-- C7 counterexample: under a directory `myvendor` — no path segment equals
the reserved names `vendor` or `.git` — the file `a.go` is excluded by the
scanner, because exclusion tests `vendor/` as a SUBSTRING of the full path;
the scanner's output therefore differs from the spec's segment-equality
contract, which keeps that file. -/
theorem c7_segment_substring_counterexample :
    findGoFilesL "/tmp/repo" [.dir "myvendor" [.file "a.go"], .file "b.go"]
      = ["/tmp/repo/b.go"] ∧
    specGoFilesL "/tmp/repo" [.dir "myvendor" [.file "a.go"], .file "b.go"]
      = ["/tmp/repo/myvendor/a.go", "/tmp/repo/b.go"] ∧
    findGoFilesL "/tmp/repo" [.dir "myvendor" [.file "a.go"], .file "b.go"]
      ≠ specGoFilesL "/tmp/repo" [.dir "myvendor" [.file "a.go"], .file "b.go"] :=
  ⟨rfl, rfl, by decide⟩

/-- C7 amended: for every root, the scanner emits — in deterministic walk
order — exactly the files whose name ends in `.go`, whose own name does not
end in `_test.go`, and whose FULL path does not contain `vendor/` or `.git/`
as a substring (provided no directory is itself named like a test file, in
which case its whole subtree is additionally pruned); in particular a path is
excluded as soon as any segment merely contains a reserved name followed by
the separator, and a directory whose path contains `vendor/` is skipped
whole. -/
theorem c7_scanner_substring_semantics (p : String) (t : FSTree)
    (hd : dirsOkT t = true) :
    findGoFilesT p t = ((allFilesT p t).filter (fun e => goKeep e.1 e.2)).map Prod.fst ∧
    (∀ (q name : String) (cs : List FSTree),
      strContains (q ++ "/" ++ name) "vendor/" = true →
      findGoFilesT q (.dir name cs) = []) := by
  refine ⟨findGoFiles_eq_filter_T p t hd, ?_⟩
  intro q name cs h
  simp [findGoFilesT, walkExcluded, h]

/-- Witness for C7 at a concrete tree with a test file, a nested source file
and a vendored subtree. -/
theorem c7_scanner_substring_semantics_witness :
    findGoFilesT "/tmp"
      (.dir "repo" [.dir "sub" [.file "a.go"], .file "b_test.go",
                    .dir "vendor" [.file "d.go"], .file "c.go"])
      = ((allFilesT "/tmp"
          (.dir "repo" [.dir "sub" [.file "a.go"], .file "b_test.go",
                        .dir "vendor" [.file "d.go"], .file "c.go"])).filter
          (fun e => goKeep e.1 e.2)).map Prod.fst :=
  (c7_scanner_substring_semantics "/tmp"
    (.dir "repo" [.dir "sub" [.file "a.go"], .file "b_test.go",
                  .dir "vendor" [.file "d.go"], .file "c.go"]) rfl).1

/-- Witness for C3 at a concrete one-file, one-function repository whose
function returns the JSON string `"hi"`. -/
theorem c3_batch_accounting_witness :
    (processRepository
        (realEnv (fun _ => .ok [fnZeroEx])
          (fun _ => runGeneratedMain (.returns (.str "hi")))) ["f.go"] []).2.ProcessedFunctions
      = discoveredFns (fun _ => .ok [fnZeroEx]) ["f.go"] :=
  (c3_batch_accounting (fun _ => .ok [fnZeroEx])
    (fun _ => runGeneratedMain (.returns (.str "hi"))) ["f.go"] []).1
